import Mathlib

/-!
Verification of the BirdConcert chirp synthesizer
(`lib/Chirpmaker/Chirpmaker.cpp` and `lib/Chirpmaker/Chirpmaker.h`).

Embedding conventions:
* C++ `double` arithmetic is embedded as exact real arithmetic (`ℝ`),
  with `PI` as `Real.pi` and `TWO_PI` as `2 * Real.pi`;
* C++ `int` is embedded as `ℤ`, and C++ `uint32_t` values as `ℕ` with an
  explicit `% 2 ^ 32` at every operation where a 32-bit wraparound can occur;
* a `double` → `uint32_t` conversion (which truncates non-negative values)
  is embedded as `Nat.floor`;
* a counted `for` loop is embedded as iteration over the explicit list of
  values taken by its loop variable;
* the side effects on the buzzer pin (`digitalWrite`, `delayMicroseconds`,
  `delay`) are embedded as an event trace, and the bird-profile dispatcher
  (`birdVoice` / `birdConcert`) as a trace of profile invocations.
-/

namespace BirdConcert

/-- `linearScale` from `Chirpmaker.cpp` (lines 113..118):
`df = (fStop - fStart) / nSteps; fNext = fStart + stepNbr * df`.
Faithful for `nSteps ≠ 0`; at `nSteps = 0` the C++ divides by zero in
`double` (`0.0/0.0` is NaN, and converting NaN downstream to `uint32_t` is
undefined behaviour) whereas Lean's convention gives `x / 0 = 0`, so every
theorem below evaluates this scale only at a nonzero `nSteps`. -/
noncomputable def linearScale (stepNbr : ℤ) (fStart fStop : ℝ) (nSteps : ℤ) : ℝ :=
  let df := (fStop - fStart) / (nSteps : ℝ)
  fStart + (stepNbr : ℝ) * df

/-- `chromaticScale` from `Chirpmaker.cpp` (lines 120..127):
`k = log(fStop / fStart) / nSteps; fNext = fStart * exp(k * stepNbr)`. -/
noncomputable def chromaticScale (stepNbr : ℤ) (fStart fStop : ℝ) (nSteps : ℤ) : ℝ :=
  let k := Real.log (fStop / fStart) / (nSteps : ℝ)
  fStart * Real.exp (k * (stepNbr : ℝ))

/-- `sinePiScale` from `Chirpmaker.cpp` (lines 129..135):
`fa = fStop - fStart; k = PI / nSteps; fNext = fStart + fa * sin(k * stepNbr)`. -/
noncomputable def sinePiScale (stepNbr : ℤ) (fStart fStop : ℝ) (nSteps : ℤ) : ℝ :=
  let fa := fStop - fStart
  let k := Real.pi / (nSteps : ℝ)
  fStart + fa * Real.sin (k * (stepNbr : ℝ))

/-- `sine2PiScale` from `Chirpmaker.cpp` (lines 137..144):
`fm = (fStart + fStop) / 2; fa = (fStop - fStart) / 2; k = TWO_PI / nSteps;
fNext = fm + fa * sin(k * stepNbr)`. -/
noncomputable def sine2PiScale (stepNbr : ℤ) (fStart fStop : ℝ) (nSteps : ℤ) : ℝ :=
  let fm := (fStart + fStop) / 2
  let fa := (fStop - fStart) / 2
  let k := 2 * Real.pi / (nSteps : ℝ)
  fm + fa * Real.sin (k * (stepNbr : ℝ))

/-- `cosinePiScale` from `Chirpmaker.cpp` (lines 146..153):
`fm = (fStart + fStop) / 2; fa = (fStop - fStart) / 2; k = PI / nSteps;
fNext = fm - fa * cos(k * stepNbr)`. -/
noncomputable def cosinePiScale (stepNbr : ℤ) (fStart fStop : ℝ) (nSteps : ℤ) : ℝ :=
  let fm := (fStart + fStop) / 2
  let fa := (fStop - fStart) / 2
  let k := Real.pi / (nSteps : ℝ)
  fm - fa * Real.cos (k * (stepNbr : ℝ))

/-- `cosine2PiScale` from `Chirpmaker.cpp` (lines 155..162): as `cosinePiScale`
but with `k = TWO_PI / nSteps`. -/
noncomputable def cosine2PiScale (stepNbr : ℤ) (fStart fStop : ℝ) (nSteps : ℤ) : ℝ :=
  let fm := (fStart + fStop) / 2
  let fa := (fStop - fStart) / 2
  let k := 2 * Real.pi / (nSteps : ℝ)
  fm - fa * Real.cos (k * (stepNbr : ℝ))

/-- `atanPiScale` from `Chirpmaker.cpp` (lines 164..169):
`k = (fStop - fStart) / atan(PI); fNext = fStart + k * atan(PI / nSteps * stepNbr)`. -/
noncomputable def atanPiScale (stepNbr : ℤ) (fStart fStop : ℝ) (nSteps : ℤ) : ℝ :=
  let k := (fStop - fStart) / Real.arctan Real.pi
  fStart + k * Real.arctan (Real.pi / (nSteps : ℝ) * (stepNbr : ℝ))

/-- `atan2PiScale` from `Chirpmaker.cpp` (lines 171..176):
`k = (fStop - fStart) / atan(TWO_PI); fNext = fStart + k * atan(TWO_PI / nSteps * stepNbr)`. -/
noncomputable def atan2PiScale (stepNbr : ℤ) (fStart fStop : ℝ) (nSteps : ℤ) : ℝ :=
  let k := (fStop - fStart) / Real.arctan (2 * Real.pi)
  fStart + k * Real.arctan (2 * Real.pi / (nSteps : ℝ) * (stepNbr : ℝ))

/-- The local `sinc` lambda shared by the three sinc scales:
`fabs(x) < 0.001 ? 1.0 : sin(x) / x`. -/
noncomputable def sinc (x : ℝ) : ℝ :=
  if |x| < 0.001 then 1 else Real.sin x / x

/-- `sincScaleNpi_Npi` from `Chirpmaker.cpp` (lines 178..193):
`halfRange = nPi * PI; range = 2 * halfRange; fa = fStop - fStart;
k = range / nSteps; fNext = fStart + fa * sinc(k * stepNbr - halfRange)`. -/
noncomputable def sincScaleNpi_Npi (stepNbr : ℤ) (fStart fStop : ℝ) (nSteps nPi : ℤ) : ℝ :=
  let halfRange := (nPi : ℝ) * Real.pi
  let range := 2 * halfRange
  let fa := fStop - fStart
  let k := range / (nSteps : ℝ)
  fStart + fa * sinc (k * (stepNbr : ℝ) - halfRange)

/-- `sincScaleNpi_0` from `Chirpmaker.cpp` (lines 195..209):
`range = nPi * PI; fa = fStop - fStart; k = range / nSteps;
fNext = fStart + fa * sinc(k * stepNbr - range)`. -/
noncomputable def sincScaleNpi_0 (stepNbr : ℤ) (fStart fStop : ℝ) (nSteps nPi : ℤ) : ℝ :=
  let range := (nPi : ℝ) * Real.pi
  let fa := fStop - fStart
  let k := range / (nSteps : ℝ)
  fStart + fa * sinc (k * (stepNbr : ℝ) - range)

/-- `sincScale0_Npi` from `Chirpmaker.cpp` (lines 211..226): swaps `fStart` and
`fStop`, then `range = nPi * PI; fa = fStop - fStart; k = range / nSteps;
fNext = fStart + fa * sinc(k * stepNbr)` (with the swapped values). -/
noncomputable def sincScale0_Npi (stepNbr : ℤ) (fStart fStop : ℝ) (nSteps nPi : ℤ) : ℝ :=
  let fStartSw := fStop
  let fStopSw := fStart
  let range := (nPi : ℝ) * Real.pi
  let fa := fStopSw - fStartSw
  let k := range / (nSteps : ℝ)
  fStartSw + fa * sinc (k * (stepNbr : ℝ))

/-- C3 counterexample: `sine2PiScale` evaluated at step 0 with `fStart = 1`,
`fStop = 3`, `nSteps = 1` yields the centre frequency 2, which differs from
`fStart = 1` by far more than the claimed `1e-9` relative tolerance. -/
theorem sine2PiScale_step0_cex :
    ¬ |sine2PiScale 0 1 3 1 - 1| ≤ 1e-9 * |(1 : ℝ)| := by
  have h : sine2PiScale 0 1 3 1 = 2 := by
    simp [sine2PiScale]
    norm_num
  rw [h]
  norm_num

/-- C3 (amended): at step 0 the `linear`, `chromatic`, `sinePi`, `cosinePi`,
`cosine2Pi`, `atanPi` and `atan2Pi` scales evaluate exactly to `fStart`;
`sine2PiScale` instead starts at the centre frequency `(fStart + fStop) / 2`
(it is `sin`-shaped around the arithmetic mean, so its step-0 value is the
mean, not `fStart`). -/
theorem scales_step0 (a b : ℝ) (n : ℤ) (ha : 0 < a) (hb : 0 < b) (hn : 0 < n) :
    linearScale 0 a b n = a ∧
    chromaticScale 0 a b n = a ∧
    sinePiScale 0 a b n = a ∧
    cosinePiScale 0 a b n = a ∧
    cosine2PiScale 0 a b n = a ∧
    atanPiScale 0 a b n = a ∧
    atan2PiScale 0 a b n = a ∧
    sine2PiScale 0 a b n = (a + b) / 2 := by
  refine ⟨?_, ?_, ?_, ?_, ?_, ?_, ?_, ?_⟩ <;>
    simp [linearScale, chromaticScale, sinePiScale, cosinePiScale, cosine2PiScale,
      atanPiScale, atan2PiScale, sine2PiScale, Real.arctan_zero] <;> ring

/-- Witness for `scales_step0` at `a = 1`, `b = 3`, `n = 2`. -/
theorem scales_step0_witness :
    ((0 : ℝ) < 1 ∧ (0 : ℝ) < 3 ∧ (0 : ℤ) < 2) ∧
    (linearScale 0 1 3 2 = 1 ∧
     chromaticScale 0 1 3 2 = 1 ∧
     sinePiScale 0 1 3 2 = 1 ∧
     cosinePiScale 0 1 3 2 = 1 ∧
     cosine2PiScale 0 1 3 2 = 1 ∧
     atanPiScale 0 1 3 2 = 1 ∧
     atan2PiScale 0 1 3 2 = 1 ∧
     sine2PiScale 0 1 3 2 = (1 + 3) / 2) :=
  ⟨⟨by norm_num, by norm_num, by norm_num⟩,
   scales_step0 1 3 2 (by norm_num) (by norm_num) (by norm_num)⟩

/-- C4 counterexample: with `fStart = 1`, `fStop = 2`, `nSteps = 1` (positive,
distinct, finite), both arctangent scales evaluate at the final step to exactly
`fStop = 2`, contradicting the claim that they do not reach `fStop`. -/
theorem atan_scales_reach_fStop_cex :
    atanPiScale 1 1 2 1 = 2 ∧ atan2PiScale 1 1 2 1 = 2 := by
  have hpi : Real.arctan Real.pi ≠ 0 := by
    simpa [Real.arctan_eq_zero_iff] using Real.pi_ne_zero
  have h2pi : Real.arctan (2 * Real.pi) ≠ 0 := by
    have : (0 : ℝ) < 2 * Real.pi := by positivity
    simpa [Real.arctan_eq_zero_iff] using this.ne'
  constructor
  · simp only [atanPiScale, Int.cast_one, div_one, mul_one]
    rw [div_mul_cancel₀ _ hpi]
    norm_num
  · simp only [atan2PiScale, Int.cast_one, div_one, mul_one]
    rw [div_mul_cancel₀ _ h2pi]
    norm_num

/-- C4 (amended): in exact real arithmetic `atanPiScale` and `atan2PiScale`
reach `fStop` exactly at `stepIndex = nSteps`, because the scaling constant
`k = (fStop - fStart) / atan(π)` (resp. `atan(2π)`) normalizes the curve so
that the endpoint is attained; the arctangent shape only flattens the interior
of the sweep. -/
theorem atan_scales_endpoint (a b : ℝ) (n : ℤ) (ha : 0 < a) (hb : 0 < b)
    (hab : a ≠ b) (hn : 0 < n) :
    atanPiScale n a b n = b ∧ atan2PiScale n a b n = b := by
  have hn0 : (n : ℝ) ≠ 0 := Int.cast_ne_zero.mpr (by omega)
  have hpi : Real.arctan Real.pi ≠ 0 := by
    simpa [Real.arctan_eq_zero_iff] using Real.pi_ne_zero
  have h2pi : Real.arctan (2 * Real.pi) ≠ 0 := by
    have : (0 : ℝ) < 2 * Real.pi := by positivity
    simpa [Real.arctan_eq_zero_iff] using this.ne'
  constructor
  · simp only [atanPiScale]
    rw [div_mul_cancel₀ _ hn0, div_mul_cancel₀ _ hpi]
    ring
  · simp only [atan2PiScale]
    rw [div_mul_cancel₀ _ hn0, div_mul_cancel₀ _ h2pi]
    ring

/-- Witness for `atan_scales_endpoint` at `a = 1`, `b = 2`, `n = 3`. -/
theorem atan_scales_endpoint_witness :
    ((0 : ℝ) < 1 ∧ (0 : ℝ) < 2 ∧ (1 : ℝ) ≠ 2 ∧ (0 : ℤ) < 3) ∧
    (atanPiScale 3 1 2 3 = 2 ∧ atan2PiScale 3 1 2 3 = 2) :=
  ⟨⟨by norm_num, by norm_num, by norm_num, by norm_num⟩,
   atan_scales_endpoint 1 2 3 (by norm_num) (by norm_num) (by norm_num) (by norm_num)⟩

/-- C5: for the chromatic scale the per-step ratio
`chromaticScale (i+1) a b n / chromaticScale i a b n` equals
`exp (log (b / a) / n)` — a constant independent of `i` — and the final step
evaluates exactly to `fStop = b`. -/
theorem chromaticScale_ratio_endpoint (a b : ℝ) (n i : ℤ)
    (ha : 0 < a) (hb : 0 < b) (hn : 0 < n) :
    chromaticScale (i + 1) a b n / chromaticScale i a b n =
      Real.exp (Real.log (b / a) / (n : ℝ)) ∧
    chromaticScale n a b n = b := by
  have ha0 : a ≠ 0 := ha.ne'
  have hn0 : (n : ℝ) ≠ 0 := Int.cast_ne_zero.mpr (by omega)
  constructor
  · simp only [chromaticScale]
    rw [mul_div_mul_left _ _ ha0, ← Real.exp_sub]
    congr 1
    push_cast
    ring
  · simp only [chromaticScale]
    rw [div_mul_cancel₀ _ hn0, Real.exp_log (by positivity)]
    field_simp

/-- Witness for `chromaticScale_ratio_endpoint` at `a = 1`, `b = 2`, `n = 4`,
`i = 2`. -/
theorem chromaticScale_ratio_endpoint_witness :
    ((0 : ℝ) < 1 ∧ (0 : ℝ) < 2 ∧ (0 : ℤ) < 4) ∧
    (chromaticScale (2 + 1) 1 2 4 / chromaticScale 2 1 2 4 =
       Real.exp (Real.log (2 / 1) / ((4 : ℤ) : ℝ)) ∧
     chromaticScale 4 1 2 4 = 2) :=
  ⟨⟨by norm_num, by norm_num, by norm_num⟩,
   chromaticScale_ratio_endpoint 1 2 4 2 (by norm_num) (by norm_num) (by norm_num)⟩

/-- An observable effect on the ToneDriver boundary: `digitalWrite(pin, b)`,
`delayMicroseconds(t)` or `delay(t)`. -/
inductive Ev where
  | setOutput : Bool → Ev
  | sleepUs : ℕ → Ev
  | sleepMs : ℕ → Ev
deriving DecidableEq

/-- The `buz` lambda shared by `chirp` and `phaser`:
`digitalWrite(pin, HIGH); delayMicroseconds(usTon); digitalWrite(pin, LOW);
delayMicroseconds(usToff)`. -/
def buz (usTon usToff : ℕ) : List Ev :=
  [Ev.setOutput true, Ev.sleepUs usTon, Ev.setOutput false, Ev.sleepUs usToff]

/-- Recognizes the leading `digitalWrite(pin, HIGH)` of a pulse. -/
def isHigh : Ev → Bool
  | Ev.setOutput true => true
  | _ => false

/-- Recognizes a `delay` (millisecond pause) event. -/
def isSleepMsEv : Ev → Bool
  | Ev.sleepMs _ => true
  | _ => false

/-- The list of values taken by the loop variable of
`for (int v = lo; v <= hi; v++)` (empty when `hi < lo`). -/
def intRangeList (lo hi : ℤ) : List ℤ :=
  (List.range (hi + 1 - lo).toNat).map (fun (j : ℕ) => lo + (j : ℤ))

/-- The header's `using FreqGen = double (&)(int, double, double, int)`. -/
abbrev FreqGen : Type := ℤ → ℝ → ℝ → ℤ → ℝ

/-- The header's `using FreqGenSinc = double (&)(int, double, double, int, int)`. -/
abbrev FreqGenSinc : Type := ℤ → ℝ → ℝ → ℤ → ℤ → ℝ

/-- Per-step on-time of `Chirpmaker::chirp` (lines 37..39):
`p = 1000000.0 / fNext; uint32_t tOn = p * duty / 100.0` — the
`double` → `uint32_t` conversion truncates the (non-negative) value. -/
noncomputable def chirpTOn (fNext : ℝ) (duty : ℤ) : ℕ :=
  ⌊1000000 / fNext * (duty : ℝ) / 100⌋₊

/-- Per-step off-time of `Chirpmaker::chirp` (line 40):
`uint32_t tOff = p - tOn` — computed in `double` (with `tOn` converted back),
then truncated to `uint32_t`. -/
noncomputable def chirpTOff (fNext : ℝ) (duty : ℤ) : ℕ :=
  ⌊1000000 / fNext - (chirpTOn fNext duty : ℝ)⌋₊

/-- Body of the step loop of `Chirpmaker::chirp` (lines 37..42) at step `s`:
evaluate `fNext = fgen(s, fStart, fStop, nSteps)` and emit `nPeriods` pulses
`buz(tOn, tOff)`. -/
noncomputable def chirpStepTrace (fgen : FreqGen) (fStart fStop : ℝ)
    (nSteps nPeriods duty : ℤ) (s : ℤ) : List Ev :=
  let fNext := fgen s fStart fStop nSteps
  (List.range nPeriods.toNat).flatMap
    (fun _ => buz (chirpTOn fNext duty) (chirpTOff fNext duty))

/-- The step loop of `Chirpmaker::chirp` (lines 35..43):
`for (int s = 0; s <= nSteps; s++)`. -/
noncomputable def chirpStepsTrace (fgen : FreqGen) (fStart fStop : ℝ)
    (nSteps nPeriods duty : ℤ) : List Ev :=
  (intRangeList 0 nSteps).flatMap (chirpStepTrace fgen fStart fStop nSteps nPeriods duty)

/-- Trace of `Chirpmaker::chirp` (lines 25..46): `nChirps` repetitions of the
step loop, each followed by `delay(msPause)`. -/
noncomputable def chirp (fStart fStop : ℝ) (nSteps nPeriods nChirps : ℤ)
    (fgen : FreqGen) (duty : ℤ) (msPause : ℕ) : List Ev :=
  (List.range nChirps.toNat).flatMap (fun _ =>
    chirpStepsTrace fgen fStart fStop nSteps nPeriods duty ++ [Ev.sleepMs msPause])

/-- Trace of the `FreqGenSinc` overload of `Chirpmaker::chirp` (lines 48..66):
a single sweep over steps `0..nSteps` (its fifth parameter `nPi` is only passed
through to the scale), followed by one `delay(msPause)`. -/
noncomputable def chirpSinc (fStart fStop : ℝ) (nSteps nPeriods nPi : ℤ)
    (fgen : FreqGenSinc) (duty : ℤ) (msPause : ℕ) : List Ev :=
  (intRangeList 0 nSteps).flatMap (fun s =>
    let fNext := fgen s fStart fStop nSteps nPi
    (List.range nPeriods.toNat).flatMap
      (fun _ => buz (chirpTOn fNext duty) (chirpTOff fNext duty)))
  ++ [Ev.sleepMs msPause]

/-- Per-duty on-time of `Chirpmaker::phaser` (line 92): `uint32_t tOn = p * d / 100`,
computed in `uint32_t` arithmetic (the `int` operand `d` is converted to
`uint32_t`, and the product wraps at `2 ^ 32`). -/
def phaserTOn (p : ℕ) (d : ℤ) : ℕ :=
  p * (d % 2 ^ 32).toNat % 2 ^ 32 / 100

/-- Per-duty off-time of `Chirpmaker::phaser` (line 93): `uint32_t tOff = p - tOn`,
a `uint32_t` subtraction that wraps at `2 ^ 32`. -/
def phaserTOff (p : ℕ) (d : ℤ) : ℕ :=
  (p + 2 ^ 32 - phaserTOn p d) % 2 ^ 32

/-- The duty loop of `Chirpmaker::phaser` (lines 90..95):
`for (int d = dutyStart; d <= dutyEnd; d++)`, each duty emitting `nPeriods`
pulses `buz(tOn, tOff)`. -/
def phaserSweepTrace (p : ℕ) (nPeriods dutyStart dutyEnd : ℤ) : List Ev :=
  (intRangeList dutyStart dutyEnd).flatMap (fun d =>
    (List.range nPeriods.toNat).flatMap (fun _ => buz (phaserTOn p d) (phaserTOff p d)))

/-- Trace of `Chirpmaker::phaser` (lines 79..98): `p = 1000000 / freq` in
`uint32_t` division, then `nChirps` repetitions of the duty sweep, each
followed by `delay(msPause)`. -/
def phaser (freq : ℕ) (nPeriods dutyStart dutyEnd nChirps : ℤ) (msPause : ℕ) : List Ev :=
  let p := 1000000 / freq
  (List.range nChirps.toNat).flatMap (fun _ =>
    phaserSweepTrace p nPeriods dutyStart dutyEnd ++ [Ev.sleepMs msPause])

/-- Counting matches in a `flatMap` whose pieces all have the same count. -/
theorem countP_flatMap_const {α : Type} (l : List α) (f : α → List Ev)
    (p : Ev → Bool) (k : ℕ) (h : ∀ x ∈ l, (f x).countP p = k) :
    (l.flatMap f).countP p = l.length * k := by
  induction l with
  | nil => simp
  | cons a t ih =>
      rw [List.flatMap_cons, List.countP_append, h a (by simp),
        ih (fun x hx => h x (by simp [hx])), List.length_cons]
      ring

/-- Each pulse contains exactly one rising edge. -/
theorem countP_buz_high (a b : ℕ) : (buz a b).countP isHigh = 1 := by
  simp [buz, List.countP_cons, isHigh]

/-- A pulse contains no millisecond pause. -/
theorem countP_buz_ms (a b : ℕ) : (buz a b).countP isSleepMsEv = 0 := by
  simp [buz, List.countP_cons, isSleepMsEv]

/-- Length of the loop-variable list of `for (int v = lo; v <= hi; v++)`. -/
theorem intRangeList_length (lo hi : ℤ) :
    (intRangeList lo hi).length = (hi + 1 - lo).toNat := by
  rw [intRangeList, List.length_map, List.length_range]

/-- The `i`-th value taken by the loop variable of
`for (int v = lo; v <= hi; v++)` is `lo + i`. -/
theorem intRangeList_getElem (lo hi : ℤ) (i : ℕ) (h : i < (hi + 1 - lo).toNat) :
    (intRangeList lo hi)[i]? = some (lo + (i : ℤ)) := by
  rw [intRangeList, List.getElem?_map, List.getElem?_range h]
  rfl

/-- C2 counterexample: in the chirp invocation
`chirp(3000, 3000, 1, 1, 1, linearScale, 50, 0)` — a normal code path, with
`df = (3000 - 3000) / 1 = 0` computed exactly in `double` — step 0 has the
positive frequency `f = 3000` and real period `1000000 / 3000 = 1000/3` µs;
the engine computes `tOn = 166` and `tOff = 167`, whose sum `333` is NOT the
period `1000000 / f` (which is `333.33…`): the sub-microsecond remainder of
the period is dropped. -/
theorem chirp_period_sum_cex :
    linearScale 0 3000 3000 1 = 3000 ∧
    chirpTOn 3000 50 = 166 ∧
    chirpTOff 3000 50 = 167 ∧
    ¬ ((chirpTOn 3000 50 + chirpTOff 3000 50 : ℕ) : ℝ) = 1000000 / 3000 := by
  have hf : linearScale 0 3000 3000 1 = 3000 := by simp [linearScale]
  have hOn : chirpTOn 3000 50 = 166 := by
    have e : (1000000 : ℝ) / 3000 * ((50 : ℤ) : ℝ) / 100 = 500 / 3 := by
      push_cast
      norm_num
    unfold chirpTOn
    rw [e, Nat.floor_eq_iff (by norm_num)]
    norm_num
  have hOff : chirpTOff 3000 50 = 167 := by
    unfold chirpTOff
    rw [hOn]
    have e : (1000000 : ℝ) / 3000 - ((166 : ℕ) : ℝ) = 502 / 3 := by
      push_cast
      norm_num
    rw [e, Nat.floor_eq_iff (by norm_num)]
    norm_num
  refine ⟨hf, hOn, hOff, ?_⟩
  rw [hOn, hOff]
  norm_num

/-- C2 (amended): in `chirp`, at every step with positive frequency `f` and
duty in 1..99, `tOn + tOff` equals `⌊1000000 / f⌋` — the period truncated to
whole microseconds — rather than the exact real period; the sum never drifts
by more than the single truncation of the period.  In `phaser`, whose period
`p = 1000000 / freq` is already a `uint32_t`, `tOn + tOff = p` exactly for any
duty `d` in 0..100. -/
theorem period_sum (f : ℝ) (duty : ℤ) (freq : ℕ) (d : ℤ)
    (hf : 0 < f) (hduty1 : 1 ≤ duty) (hduty2 : duty ≤ 99)
    (hfreq : 0 < freq) (hd0 : 0 ≤ d) (hd1 : d ≤ 100) :
    chirpTOn f duty + chirpTOff f duty = ⌊1000000 / f⌋₊ ∧
    phaserTOn (1000000 / freq) d + phaserTOff (1000000 / freq) d = 1000000 / freq := by
  constructor
  · have hp : (0 : ℝ) < 1000000 / f := by positivity
    have hcast : ((duty : ℝ)) ≤ 100 := by
      have : (duty : ℝ) ≤ 99 := by exact_mod_cast hduty2
      linarith
    have hle : 1000000 / f * (duty : ℝ) / 100 ≤ 1000000 / f := by
      have h1 : 1000000 / f * (duty : ℝ) / 100 ≤ 1000000 / f * 100 / 100 := by
        gcongr
      have h2 : 1000000 / f * (100 : ℝ) / 100 = 1000000 / f := by ring
      linarith
    have hOnle : ⌊1000000 / f * (duty : ℝ) / 100⌋₊ ≤ ⌊1000000 / f⌋₊ :=
      Nat.floor_le_floor hle
    unfold chirpTOff chirpTOn
    rw [Nat.floor_sub_nat]
    unfold chirpTOn at hOnle
    omega
  · have hd32 : d % 2 ^ 32 = d := Int.emod_eq_of_lt hd0 (by omega)
    unfold phaserTOff phaserTOn
    rw [hd32]
    have hk : d.toNat ≤ 100 := by omega
    have hp6 : 1000000 / freq ≤ 1000000 := Nat.div_le_self _ _
    have hmul : 1000000 / freq * d.toNat ≤ 1000000 / freq * 100 :=
      Nat.mul_le_mul_left _ hk
    have hmod : 1000000 / freq * d.toNat % 2 ^ 32 = 1000000 / freq * d.toNat :=
      Nat.mod_eq_of_lt (by omega)
    rw [hmod]
    omega

/-- Witness for `period_sum` at `f = 2000`, `duty = 50`, `freq = 1000`,
`d = 50`. -/
theorem period_sum_witness :
    ((0 : ℝ) < 2000 ∧ (1 : ℤ) ≤ 50 ∧ (50 : ℤ) ≤ 99 ∧ 0 < 1000 ∧
     (0 : ℤ) ≤ 50 ∧ (50 : ℤ) ≤ 100) ∧
    (chirpTOn 2000 50 + chirpTOff 2000 50 = ⌊(1000000 : ℝ) / 2000⌋₊ ∧
     phaserTOn (1000000 / 1000) 50 + phaserTOff (1000000 / 1000) 50 = 1000000 / 1000) :=
  ⟨⟨by norm_num, by norm_num, by norm_num, by norm_num, by norm_num, by norm_num⟩,
   period_sum 2000 50 1000 50 (by norm_num) (by norm_num) (by norm_num)
     (by norm_num) (by norm_num) (by norm_num)⟩

/-- A trace on the ToneDriver boundary consisting only of complete pulses
(`setOutput(high); sleepMicroseconds(tOn); setOutput(low);
sleepMicroseconds(tOff)`) and millisecond pauses between them: the output is
never set high twice without an intervening low, and every high is followed by
a low in the same pulse. -/
inductive PulseSeq : List Ev → Prop where
  | nil : PulseSeq []
  | pause (t : ℕ) (rest : List Ev) : PulseSeq rest → PulseSeq (Ev.sleepMs t :: rest)
  | pulse (a b : ℕ) (rest : List Ev) : PulseSeq rest →
      PulseSeq (Ev.setOutput true :: Ev.sleepUs a :: Ev.setOutput false ::
        Ev.sleepUs b :: rest)

/-- Well-formed pulse traces are closed under concatenation. -/
theorem PulseSeq.append {xs ys : List Ev} (hx : PulseSeq xs) (hy : PulseSeq ys) :
    PulseSeq (xs ++ ys) := by
  induction hx with
  | nil => simpa using hy
  | pause t rest h ih => exact PulseSeq.pause t _ ih
  | pulse a b rest h ih => exact PulseSeq.pulse a b _ ih

/-- A `flatMap` of well-formed pulse traces is well formed. -/
theorem pulseSeq_flatMap {α : Type} (l : List α) (f : α → List Ev)
    (h : ∀ x ∈ l, PulseSeq (f x)) : PulseSeq (l.flatMap f) := by
  induction l with
  | nil => exact PulseSeq.nil
  | cons a t ih =>
      rw [List.flatMap_cons]
      exact (h a (by simp)).append (ih (fun x hx => h x (by simp [hx])))

/-- One `buz` invocation is exactly one well-formed pulse. -/
theorem pulseSeq_buz (a b : ℕ) : PulseSeq (buz a b) :=
  PulseSeq.pulse a b [] PulseSeq.nil

/-- One chirp step emits exactly `nPeriods` rising edges. -/
theorem chirpStepTrace_countP_high (fgen : FreqGen) (fStart fStop : ℝ)
    (nSteps nPeriods duty : ℤ) (s : ℤ) :
    (chirpStepTrace fgen fStart fStop nSteps nPeriods duty s).countP isHigh =
      nPeriods.toNat := by
  have h := countP_flatMap_const (List.range nPeriods.toNat)
      (fun _ => buz (chirpTOn (fgen s fStart fStop nSteps) duty)
        (chirpTOff (fgen s fStart fStop nSteps) duty)) isHigh 1
      (fun x _ => countP_buz_high _ _)
  simpa [chirpStepTrace] using h

/-- One chirp step contains no millisecond pause. -/
theorem chirpStepTrace_countP_ms (fgen : FreqGen) (fStart fStop : ℝ)
    (nSteps nPeriods duty : ℤ) (s : ℤ) :
    (chirpStepTrace fgen fStart fStop nSteps nPeriods duty s).countP isSleepMsEv = 0 := by
  have h := countP_flatMap_const (List.range nPeriods.toNat)
      (fun _ => buz (chirpTOn (fgen s fStart fStop nSteps) duty)
        (chirpTOff (fgen s fStart fStop nSteps) duty)) isSleepMsEv 0
      (fun x _ => countP_buz_ms _ _)
  simpa [chirpStepTrace] using h

/-- The step loop of one chirp repetition emits `(nSteps + 1) * nPeriods`
rising edges. -/
theorem chirpStepsTrace_countP_high (fgen : FreqGen) (fStart fStop : ℝ)
    (nSteps nPeriods duty : ℤ) :
    (chirpStepsTrace fgen fStart fStop nSteps nPeriods duty).countP isHigh =
      (nSteps + 1).toNat * nPeriods.toNat := by
  have h := countP_flatMap_const (intRangeList 0 nSteps)
      (chirpStepTrace fgen fStart fStop nSteps nPeriods duty) isHigh nPeriods.toNat
      (fun s _ => chirpStepTrace_countP_high fgen fStart fStop nSteps nPeriods duty s)
  simpa [chirpStepsTrace, intRangeList_length] using h

/-- The step loop of one chirp repetition contains no millisecond pause. -/
theorem chirpStepsTrace_countP_ms (fgen : FreqGen) (fStart fStop : ℝ)
    (nSteps nPeriods duty : ℤ) :
    (chirpStepsTrace fgen fStart fStop nSteps nPeriods duty).countP isSleepMsEv = 0 := by
  have h := countP_flatMap_const (intRangeList 0 nSteps)
      (chirpStepTrace fgen fStart fStop nSteps nPeriods duty) isSleepMsEv 0
      (fun s _ => chirpStepTrace_countP_ms fgen fStart fStop nSteps nPeriods duty s)
  simpa [chirpStepsTrace] using h

/-- C6: `chirp(fStart, fStop, nSteps, nPeriods, nChirps, fgen, duty, msPause)`
performs exactly `nChirps` repetitions, visiting steps `0..nSteps` in order
(`intRangeList 0 nSteps` is the step sequence, of length `nSteps + 1`, whose
`j`-th entry is `j`); each step emits exactly `nPeriods` pulses, for
`nChirps * (nSteps + 1) * nPeriods` rising edges in total; the step loop
contains no millisecond pause, the `delay(msPause)` occurs exactly once per
repetition, and the trace ends with it. -/
theorem chirp_structure (fStart fStop : ℝ) (nSteps nPeriods nChirps : ℤ)
    (fgen : FreqGen) (duty : ℤ) (msPause : ℕ) (j : ℕ)
    (hS : 0 ≤ nSteps) (hP : 0 ≤ nPeriods) (hC : 0 ≤ nChirps)
    (hj : j < nSteps.toNat + 1) :
    (chirp fStart fStop nSteps nPeriods nChirps fgen duty msPause).countP isHigh =
      nChirps.toNat * ((nSteps.toNat + 1) * nPeriods.toNat) ∧
    (chirp fStart fStop nSteps nPeriods nChirps fgen duty msPause).countP isSleepMsEv =
      nChirps.toNat ∧
    (chirpStepsTrace fgen fStart fStop nSteps nPeriods duty).countP isSleepMsEv = 0 ∧
    (intRangeList 0 nSteps).length = nSteps.toNat + 1 ∧
    (intRangeList 0 nSteps)[j]? = some (j : ℤ) ∧
    (chirpStepTrace fgen fStart fStop nSteps nPeriods duty (j : ℤ)).countP isHigh =
      nPeriods.toNat ∧
    (0 < nChirps →
      (chirp fStart fStop nSteps nPeriods nChirps fgen duty msPause).getLast? =
        some (Ev.sleepMs msPause)) := by
  have hsn : (nSteps + 1).toNat = nSteps.toNat + 1 := by omega
  refine ⟨?_, ?_, ?_, ?_, ?_, ?_, ?_⟩
  · have h := countP_flatMap_const (List.range nChirps.toNat)
        (fun _ => chirpStepsTrace fgen fStart fStop nSteps nPeriods duty ++
          [Ev.sleepMs msPause]) isHigh ((nSteps + 1).toNat * nPeriods.toNat)
        (fun x _ => by
          rw [List.countP_append, chirpStepsTrace_countP_high]
          simp [List.countP_cons, isHigh])
    rw [hsn] at h
    simpa [chirp] using h
  · have h := countP_flatMap_const (List.range nChirps.toNat)
        (fun _ => chirpStepsTrace fgen fStart fStop nSteps nPeriods duty ++
          [Ev.sleepMs msPause]) isSleepMsEv 1
        (fun x _ => by
          rw [List.countP_append, chirpStepsTrace_countP_ms]
          simp [List.countP_cons, isSleepMsEv])
    simpa [chirp] using h
  · exact chirpStepsTrace_countP_ms fgen fStart fStop nSteps nPeriods duty
  · rw [intRangeList_length]
    omega
  · have := intRangeList_getElem 0 nSteps j (by omega)
    simpa using this
  · exact chirpStepTrace_countP_high fgen fStart fStop nSteps nPeriods duty (j : ℤ)
  · intro hCpos
    obtain ⟨m, hm⟩ : ∃ m, nChirps.toNat = m + 1 := ⟨nChirps.toNat - 1, by omega⟩
    rw [chirp, hm, List.range_succ, List.flatMap_append]
    simp [List.getLast?_append]

/-- Witness for `chirp_structure` at `fStart = 1000`, `fStop = 2000`,
`nSteps = 1`, `nPeriods = 1`, `nChirps = 1`, `fgen = linearScale`,
`duty = 50`, `msPause = 5`, `j = 0`. -/
theorem chirp_structure_witness :
    ((0 : ℤ) ≤ 1 ∧ (0 : ℤ) ≤ 1 ∧ (0 : ℤ) ≤ 1 ∧ 0 < (1 : ℤ).toNat + 1) ∧
    ((chirp 1000 2000 1 1 1 linearScale 50 5).countP isHigh =
       (1 : ℤ).toNat * (((1 : ℤ).toNat + 1) * (1 : ℤ).toNat) ∧
     (chirp 1000 2000 1 1 1 linearScale 50 5).countP isSleepMsEv = (1 : ℤ).toNat ∧
     (chirpStepsTrace linearScale 1000 2000 1 1 50).countP isSleepMsEv = 0 ∧
     (intRangeList 0 1).length = (1 : ℤ).toNat + 1 ∧
     (intRangeList 0 1)[(0 : ℕ)]? = some ((0 : ℕ) : ℤ) ∧
     (chirpStepTrace linearScale 1000 2000 1 1 50 ((0 : ℕ) : ℤ)).countP isHigh =
       (1 : ℤ).toNat ∧
     (0 < (1 : ℤ) →
       (chirp 1000 2000 1 1 1 linearScale 50 5).getLast? =
         some (Ev.sleepMs 5))) :=
  ⟨⟨by norm_num, by norm_num, by norm_num, by norm_num⟩,
   chirp_structure 1000 2000 1 1 1 linearScale 50 5 0
     (by norm_num) (by norm_num) (by norm_num) (by norm_num)⟩

/-- C10: the sinc overload of `chirp` performs exactly one sweep over steps
`0..nSteps` — its fifth parameter `nPi` is only passed to the scale, not used
as a repetition count — emitting `(nSteps + 1) * nPeriods` rising edges and
exactly one `delay(msPause)`, which is the last event, for every value of
`nPi`. -/
theorem chirpSinc_structure (fStart fStop : ℝ) (nSteps nPeriods nPi : ℤ)
    (fgen : FreqGenSinc) (duty : ℤ) (msPause : ℕ)
    (hS : 0 ≤ nSteps) (hP : 0 ≤ nPeriods) :
    (chirpSinc fStart fStop nSteps nPeriods nPi fgen duty msPause).countP isHigh =
      (nSteps.toNat + 1) * nPeriods.toNat ∧
    (chirpSinc fStart fStop nSteps nPeriods nPi fgen duty msPause).countP isSleepMsEv = 1 ∧
    (chirpSinc fStart fStop nSteps nPeriods nPi fgen duty msPause).getLast? =
      some (Ev.sleepMs msPause) := by
  have hsn : (nSteps + 1).toNat = nSteps.toNat + 1 := by omega
  have hsteps : ∀ s : ℤ,
      ((List.range nPeriods.toNat).flatMap
        (fun _ => buz (chirpTOn (fgen s fStart fStop nSteps nPi) duty)
          (chirpTOff (fgen s fStart fStop nSteps nPi) duty))).countP isHigh =
        nPeriods.toNat := by
    intro s
    have h := countP_flatMap_const (List.range nPeriods.toNat)
        (fun _ => buz (chirpTOn (fgen s fStart fStop nSteps nPi) duty)
          (chirpTOff (fgen s fStart fStop nSteps nPi) duty)) isHigh 1
        (fun x _ => countP_buz_high _ _)
    simpa using h
  have hstepsMs : ∀ s : ℤ,
      ((List.range nPeriods.toNat).flatMap
        (fun _ => buz (chirpTOn (fgen s fStart fStop nSteps nPi) duty)
          (chirpTOff (fgen s fStart fStop nSteps nPi) duty))).countP isSleepMsEv = 0 := by
    intro s
    have h := countP_flatMap_const (List.range nPeriods.toNat)
        (fun _ => buz (chirpTOn (fgen s fStart fStop nSteps nPi) duty)
          (chirpTOff (fgen s fStart fStop nSteps nPi) duty)) isSleepMsEv 0
        (fun x _ => countP_buz_ms _ _)
    simpa using h
  refine ⟨?_, ?_, ?_⟩
  · have h := countP_flatMap_const (intRangeList 0 nSteps)
        (fun s => (List.range nPeriods.toNat).flatMap
          (fun _ => buz (chirpTOn (fgen s fStart fStop nSteps nPi) duty)
            (chirpTOff (fgen s fStart fStop nSteps nPi) duty))) isHigh nPeriods.toNat
        (fun s _ => hsteps s)
    rw [intRangeList_length] at h
    simp only [chirpSinc, List.countP_append]
    rw [h]
    simp [List.countP_cons, isHigh, hsn]
  · have h := countP_flatMap_const (intRangeList 0 nSteps)
        (fun s => (List.range nPeriods.toNat).flatMap
          (fun _ => buz (chirpTOn (fgen s fStart fStop nSteps nPi) duty)
            (chirpTOff (fgen s fStart fStop nSteps nPi) duty))) isSleepMsEv 0
        (fun s _ => hstepsMs s)
    simp only [chirpSinc, List.countP_append]
    rw [h]
    simp [List.countP_cons, isSleepMsEv]
  · simp [chirpSinc]

/-- Witness for `chirpSinc_structure` at `fStart = 100`, `fStop = 200`,
`nSteps = 1`, `nPeriods = 1`, `nPi = 3`, `fgen = sincScaleNpi_Npi`,
`duty = 50`, `msPause = 2`. -/
theorem chirpSinc_structure_witness :
    ((0 : ℤ) ≤ 1 ∧ (0 : ℤ) ≤ 1) ∧
    ((chirpSinc 100 200 1 1 3 sincScaleNpi_Npi 50 2).countP isHigh =
       ((1 : ℤ).toNat + 1) * (1 : ℤ).toNat ∧
     (chirpSinc 100 200 1 1 3 sincScaleNpi_Npi 50 2).countP isSleepMsEv = 1 ∧
     (chirpSinc 100 200 1 1 3 sincScaleNpi_Npi 50 2).getLast? =
       some (Ev.sleepMs 2)) :=
  ⟨⟨by norm_num, by norm_num⟩,
   chirpSinc_structure 100 200 1 1 3 sincScaleNpi_Npi 50 2 (by norm_num) (by norm_num)⟩

/-- One duty setting of the phaser sweep contains no millisecond pause. -/
theorem phaserDutyTrace_countP_ms (p : ℕ) (nPeriods : ℤ) (d : ℤ) :
    ((List.range nPeriods.toNat).flatMap
      (fun _ => buz (phaserTOn p d) (phaserTOff p d))).countP isSleepMsEv = 0 := by
  have h := countP_flatMap_const (List.range nPeriods.toNat)
      (fun _ => buz (phaserTOn p d) (phaserTOff p d)) isSleepMsEv 0
      (fun x _ => countP_buz_ms _ _)
  simpa using h

/-- The duty sweep of one phaser repetition contains no millisecond pause. -/
theorem phaserSweepTrace_countP_ms (p : ℕ) (nPeriods dutyStart dutyEnd : ℤ) :
    (phaserSweepTrace p nPeriods dutyStart dutyEnd).countP isSleepMsEv = 0 := by
  have h := countP_flatMap_const (intRangeList dutyStart dutyEnd)
      (fun d => (List.range nPeriods.toNat).flatMap
        (fun _ => buz (phaserTOn p d) (phaserTOff p d))) isSleepMsEv 0
      (fun d _ => phaserDutyTrace_countP_ms p nPeriods d)
  simpa [phaserSweepTrace] using h

/-- C7: the phaser's duty loop visits `dutyEnd - dutyStart + 1` duty settings,
running from `dutyStart` to `dutyEnd` inclusive in steps of one (the `i`-th
setting is `dutyStart + i`); `delay(pauseMs)` occurs exactly once per
repetition and never inside a sweep; and at the extremes, duty 0 gives
`tOn = 0, tOff = p` while duty 100 gives `tOn = p, tOff = 0`, for the
`uint32_t` period `p = 1000000 / freq`. -/
theorem phaser_structure (freq : ℕ) (nPeriods dutyStart dutyEnd nChirps : ℤ)
    (msPause : ℕ) (i : ℕ)
    (hfreq : 0 < freq) (h0 : 0 ≤ dutyStart) (h1 : dutyStart ≤ dutyEnd)
    (h2 : dutyEnd ≤ 100) (hC : 0 ≤ nChirps)
    (hi : i < (dutyEnd - dutyStart + 1).toNat) :
    ((intRangeList dutyStart dutyEnd).length : ℤ) = dutyEnd - dutyStart + 1 ∧
    (intRangeList dutyStart dutyEnd)[i]? = some (dutyStart + (i : ℤ)) ∧
    (phaser freq nPeriods dutyStart dutyEnd nChirps msPause).countP isSleepMsEv =
      nChirps.toNat ∧
    (phaserSweepTrace (1000000 / freq) nPeriods dutyStart dutyEnd).countP isSleepMsEv = 0 ∧
    phaserTOn (1000000 / freq) 0 = 0 ∧
    phaserTOff (1000000 / freq) 0 = 1000000 / freq ∧
    phaserTOn (1000000 / freq) 100 = 1000000 / freq ∧
    phaserTOff (1000000 / freq) 100 = 0 := by
  have hp6 : 1000000 / freq ≤ 1000000 := Nat.div_le_self _ _
  have hOn0 : phaserTOn (1000000 / freq) 0 = 0 := by
    unfold phaserTOn
    norm_num
  have hOn100 : phaserTOn (1000000 / freq) 100 = 1000000 / freq := by
    unfold phaserTOn
    have e : ((100 : ℤ) % 2 ^ 32).toNat = 100 := by decide
    rw [e]
    have hmod : 1000000 / freq * 100 % 2 ^ 32 = 1000000 / freq * 100 :=
      Nat.mod_eq_of_lt (by omega)
    rw [hmod]
    omega
  refine ⟨?_, ?_, ?_, ?_, hOn0, ?_, hOn100, ?_⟩
  · rw [intRangeList_length]
    omega
  · exact intRangeList_getElem dutyStart dutyEnd i (by omega)
  · have h := countP_flatMap_const (List.range nChirps.toNat)
        (fun _ => phaserSweepTrace (1000000 / freq) nPeriods dutyStart dutyEnd ++
          [Ev.sleepMs msPause]) isSleepMsEv 1
        (fun x _ => by
          rw [List.countP_append, phaserSweepTrace_countP_ms]
          simp [List.countP_cons, isSleepMsEv])
    simpa [phaser] using h
  · exact phaserSweepTrace_countP_ms (1000000 / freq) nPeriods dutyStart dutyEnd
  · unfold phaserTOff
    rw [hOn0]
    omega
  · unfold phaserTOff
    rw [hOn100]
    omega

/-- Witness for `phaser_structure` at `freq = 1000`, `nPeriods = 1`,
`dutyStart = 0`, `dutyEnd = 1`, `nChirps = 1`, `msPause = 0`, `i = 0`. -/
theorem phaser_structure_witness :
    (0 < 1000 ∧ (0 : ℤ) ≤ 0 ∧ (0 : ℤ) ≤ 1 ∧ (1 : ℤ) ≤ 100 ∧ (0 : ℤ) ≤ 1 ∧
     0 < ((1 : ℤ) - 0 + 1).toNat) ∧
    (((intRangeList 0 1).length : ℤ) = 1 - 0 + 1 ∧
     (intRangeList 0 1)[(0 : ℕ)]? = some (0 + ((0 : ℕ) : ℤ)) ∧
     (phaser 1000 1 0 1 1 0).countP isSleepMsEv = (1 : ℤ).toNat ∧
     (phaserSweepTrace (1000000 / 1000) 1 0 1).countP isSleepMsEv = 0 ∧
     phaserTOn (1000000 / 1000) 0 = 0 ∧
     phaserTOff (1000000 / 1000) 0 = 1000000 / 1000 ∧
     phaserTOn (1000000 / 1000) 100 = 1000000 / 1000 ∧
     phaserTOff (1000000 / 1000) 100 = 0) :=
  ⟨⟨by norm_num, by norm_num, by norm_num, by norm_num, by norm_num, by norm_num⟩,
   phaser_structure 1000 1 0 1 1 0 0 (by norm_num) (by norm_num) (by norm_num)
     (by norm_num) (by norm_num) (by norm_num)⟩

/-- C9: every trace the engines emit consists exclusively of complete pulses
in the strict pattern `setOutput(high); sleepMicroseconds(tOn);
setOutput(low); sleepMicroseconds(tOff)`, with millisecond pauses only between
pulses — the output is never set high twice without an intervening low, and
every high is followed by a low in the same pulse.  This holds for `chirp`,
for its sinc overload, and for `phaser`. -/
theorem engine_pulse_pattern (fStart fStop : ℝ) (nSteps nPeriods nChirps nPi : ℤ)
    (fgen : FreqGen) (fgenSinc : FreqGenSinc) (duty : ℤ) (freq : ℕ)
    (dutyStart dutyEnd : ℤ) (msPause : ℕ) :
    PulseSeq (chirp fStart fStop nSteps nPeriods nChirps fgen duty msPause) ∧
    PulseSeq (chirpSinc fStart fStop nSteps nPeriods nPi fgenSinc duty msPause) ∧
    PulseSeq (phaser freq nPeriods dutyStart dutyEnd nChirps msPause) := by
  have hstep : PulseSeq (chirpStepsTrace fgen fStart fStop nSteps nPeriods duty) := by
    rw [chirpStepsTrace]
    refine pulseSeq_flatMap _ _ (fun s _ => ?_)
    simp only [chirpStepTrace]
    exact pulseSeq_flatMap _ _ (fun x _ => pulseSeq_buz _ _)
  refine ⟨?_, ?_, ?_⟩
  · rw [chirp]
    refine pulseSeq_flatMap _ _ (fun x _ => ?_)
    exact hstep.append (PulseSeq.pause _ _ PulseSeq.nil)
  · rw [chirpSinc]
    refine PulseSeq.append ?_ (PulseSeq.pause _ _ PulseSeq.nil)
    refine pulseSeq_flatMap _ _ (fun s _ => ?_)
    exact pulseSeq_flatMap _ _ (fun x _ => pulseSeq_buz _ _)
  · rw [phaser]
    refine pulseSeq_flatMap _ _ (fun x _ => ?_)
    refine PulseSeq.append ?_ (PulseSeq.pause _ _ PulseSeq.nil)
    rw [phaserSweepTrace]
    refine pulseSeq_flatMap _ _ (fun d _ => ?_)
    exact pulseSeq_flatMap _ _ (fun x _ => pulseSeq_buz _ _)

/-- The fifteen bird-profile member functions stored in `_birds`
(`Chirpmaker.h`, lines 61..75). -/
inductive BirdTag where
  | bird0 | bird1 | bird2 | bird3 | bird4 | bird5 | bird6 | bird7 | bird8
  | bird9 | bird10 | cuckoo | raven | chaffinch | blackbird
deriving DecidableEq

/-- The `_birds` array as filled in the `Chirpmaker` constructor
(`Chirpmaker.h`, lines 29..43): a dense registry mapping ids 0..14 to the
fifteen profiles. -/
def birds : List BirdTag :=
  [BirdTag.bird0, BirdTag.bird1, BirdTag.bird2, BirdTag.bird3, BirdTag.bird4,
   BirdTag.bird5, BirdTag.bird6, BirdTag.bird7, BirdTag.bird8, BirdTag.bird9,
   BirdTag.bird10, BirdTag.cuckoo, BirdTag.raven, BirdTag.chaffinch,
   BirdTag.blackbird]

/-- `_nbrBirds = sizeof(_birds) / sizeof(_birds[0])` (`Chirpmaker.h`, line 78). -/
def nbrBirds : ℕ := birds.length

/-- An observable dispatcher effect: invocation of the profile with a given
registry id, or a millisecond pause (`delay`). -/
inductive DEv where
  | invoke : ℕ → DEv
  | sleepMs : ℕ → DEv
deriving DecidableEq

/-- Recognizes a profile invocation. -/
def isInvoke : DEv → Bool
  | DEv.invoke _ => true
  | _ => false

/-- Recognizes a millisecond pause at the dispatcher level. -/
def isSleepMsDEv : DEv → Bool
  | DEv.sleepMs _ => true
  | _ => false

/-- `Chirpmaker::birdVoice` (`Chirpmaker.cpp`, lines 3..9): reads
`_birds[birdNbr]` with NO range check, invokes the profile, then
`delay(msPause)`.  For `birdNbr ≥ 15` the C++ array read (and the indirect
call through the garbage member pointer) is undefined behaviour; the embedding
renders the lookup with `List` indexing, so the out-of-range case — where the
source has no defined behaviour at all — is `none`. -/
def birdVoice (birdNbr : ℕ) (msPause : ℕ) : Option (List DEv) :=
  (birds[birdNbr]?).map (fun _ => [DEv.invoke birdNbr, DEv.sleepMs msPause])

/-- `Chirpmaker::birdConcert` (`Chirpmaker.cpp`, lines 345..355): `_nbrBirds`
loop iterations, the `i`-th drawing `b = random(_nbrBirds)` and invoking
`_birds[b]` directly (not via `birdVoice`, hence no per-voice pause), followed
by a single `delay(msPause)`.  The RandomSource is modelled by `r`, where
`r i` is the value returned by the `i`-th call of `random(_nbrBirds)` (the
Arduino contract puts it in `[0, _nbrBirds - 1]`). -/
def birdConcert (msPause : ℕ) (r : ℕ → ℕ) : List DEv :=
  (List.range nbrBirds).map (fun i => DEv.invoke (r i)) ++ [DEv.sleepMs msPause]

/-- C1 (the code evaluated at the failing input): id 15 lies outside the
registry, whose valid ids are exactly 0..14 (`nbrBirds = 15`), and
`birdVoice 15` has no defined result: the source dereferences `_birds[15]`
without any range check — undefined behaviour — instead of failing before any
ToneDriver call as the claim requires. -/
theorem birdVoice_out_of_range :
    nbrBirds = 15 ∧ birds[(15 : ℕ)]? = none ∧ birdVoice 15 100 = none :=
  ⟨rfl, rfl, rfl⟩

/-- C8: `birdConcert(msPause)` performs exactly `nbrBirds = 15` iterations —
the registry size; the `i`-th event of the trace is the invocation of profile
id `r i`, the `i`-th random draw, with no per-voice pause in between; the
`delay(msPause)` is issued exactly once, as the final event.  With a
deterministic (seeded) RandomSource, `r` is the draw sequence the seed
dictates, so the profiles are invoked exactly in that order. -/
theorem birdConcert_structure (msPause : ℕ) (r : ℕ → ℕ) (i : ℕ)
    (hi : i < nbrBirds) :
    (birdConcert msPause r).countP isInvoke = nbrBirds ∧
    nbrBirds = birds.length ∧
    (birdConcert msPause r)[i]? = some (DEv.invoke (r i)) ∧
    (birdConcert msPause r).countP isSleepMsDEv = 1 ∧
    (birdConcert msPause r).getLast? = some (DEv.sleepMs msPause) := by
  refine ⟨?_, rfl, ?_, ?_, ?_⟩
  · have hlen : List.countP (isInvoke ∘ fun k => DEv.invoke (r k)) (List.range nbrBirds) =
        (List.range nbrBirds).length :=
      List.countP_eq_length.mpr (fun a _ => rfl)
    rw [birdConcert, List.countP_append, List.countP_map, hlen, List.length_range]
    simp [isInvoke, List.countP_cons]
  · rw [birdConcert]
    rw [List.getElem?_append_left (by simpa using hi)]
    rw [List.getElem?_map, List.getElem?_range hi]
    rfl
  · rw [birdConcert, List.countP_append, List.countP_map,
      List.countP_eq_zero.mpr (fun a _ => by simp [isSleepMsDEv, Function.comp])]
    simp [isSleepMsDEv, List.countP_cons]
  · simp [birdConcert]

/-- Witness for `birdConcert_structure` at `msPause = 3`, `r = id`, `i = 0`. -/
theorem birdConcert_structure_witness :
    (0 < nbrBirds) ∧
    ((birdConcert 3 (fun n => n)).countP isInvoke = nbrBirds ∧
     nbrBirds = birds.length ∧
     (birdConcert 3 (fun n => n))[(0 : ℕ)]? = some (DEv.invoke 0) ∧
     (birdConcert 3 (fun n => n)).countP isSleepMsDEv = 1 ∧
     (birdConcert 3 (fun n => n)).getLast? = some (DEv.sleepMs 3)) :=
  ⟨by decide, birdConcert_structure 3 (fun n => n) 0 (by decide)⟩

end BirdConcert
